import Mathlib

/-!
Verification of smmap's `MappedMemoryBuffer` (src/smmap/buf.py).

The buffer delegates all mapping work to a `MemoryCursor` collaborator that
lives in `mman.py`, which is not among the sources; per the specification the
cursor is an external collaborator given by contract only, so it is modelled
here from that contract.  The buffer operations themselves are translated
line by line from `buf.py`.

Conventions of the embedding:
* bytes are `Nat` values, the resource is a `List Nat`;
* Python exceptions become constructors of `Err`, named after the error
  kinds of the specification: an access on a `None` cursor or a failed
  `assert c.is_valid()` is `Err.notBound`, the `ValueError` of the
  constructor is `Err.invalidRegion`, and a read that runs past the
  resource (an `IndexError`, or any attribute access on a cursor whose
  relocation failed) is `Err.outOfRange`;
* the slow-path `while` loop of `__getslice__` has no guard against a
  zero-progress relocation; a step that obtains a valid window yet zero
  bytes would loop forever in Python, and the embedding marks that branch
  with the distinguished value `Err.diverges`;
* Python mutates the cursor in place; the embedding passes the cursor (and
  the buffer holding it) explicitly, so operations return their result
  paired with the post-state.  Indices are `Nat`: the buffer interface is
  specified for byte offsets with `j >= i`.
-/

namespace Smmap

/-- Error kinds of the specification, plus a marker for non-termination. -/
inductive Err where
  | notBound      : Err
  | invalidRegion : Err
  | outOfRange    : Err
  | diverges      : Err
deriving DecidableEq, Repr

/-- Modelled from the spec: the cursor contract of mman.py's `MemoryCursor`
(absent from the sources).  It owns a sliding window of at most `winSize`
mapped bytes of an underlying `resource`; `window = some (o, s)` means the
window currently exposes bytes `[o, o + s)` of the resource, `none` means no
region is in use (the cursor is invalid).  `assoc` is `is_associated`:
whether the cursor is bound to a live resource at all.  `id` models Python
object identity and `relocations` counts `use_region` calls; neither exists
in the real cursor, they only let theorems speak about "the same cursor
object" and "no relocation was issued". -/
structure MemoryCursor where
  id          : Nat
  resource    : List Nat
  winSize     : Nat
  assoc       : Bool
  window      : Option (Nat × Nat)
  relocations : Nat
deriving DecidableEq, Repr

namespace MemoryCursor

/-- Modelled from the spec: `is_valid` is true once the cursor holds a live
region (an active window). -/
def is_valid (c : MemoryCursor) : Bool :=
  c.window.isSome

/-- Modelled from the spec: `is_associated` is true once the cursor is bound
to a resource, independently of having an active window. -/
def is_associated (c : MemoryCursor) : Bool :=
  c.assoc

/-- Modelled from the spec: `includes_ofs(i)` — whether the current window
covers absolute offset `i`. -/
def includes_ofs (c : MemoryCursor) (i : Nat) : Bool :=
  match c.window with
  | none => false
  | some (o, s) => decide (o ≤ i) && decide (i < o + s)

/-- Modelled from the spec: `ofs_begin()`, the absolute offset of the first
window byte.  Only meaningful on a valid cursor. -/
def ofs_begin (c : MemoryCursor) : Nat :=
  match c.window with
  | none => 0
  | some (o, _) => o

/-- Modelled from the spec: `ofs_end()`, the absolute offset one past the
last window byte.  Only meaningful on a valid cursor. -/
def ofs_end (c : MemoryCursor) : Nat :=
  match c.window with
  | none => 0
  | some (o, s) => o + s

/-- Modelled from the spec: `buffer()` returns exactly the bytes of the
current window, no more, no less.  On an invalid cursor the real call
raises; the buffer code paths below map that raise to an error, so here we
only need the valid case (the invalid case yields the empty list). -/
def buffer (c : MemoryCursor) : List Nat :=
  match c.window with
  | none => []
  | some (o, s) => (c.resource.drop o).take s

/-- Modelled from the spec: `use_region(offset, length, flags)` relocates the
window to cover at least `length` bytes from `offset`, capped by the window
size and truncated at end of resource; it never silently returns a window
not containing `offset` unless the resource ends before `offset`, in which
case the cursor ends up without a region (invalid).  `flags` is an opaque
pass-through the cursor model ignores. -/
def use_region (c : MemoryCursor) (ofs len flags : Nat) : MemoryCursor :=
  if c.assoc = true ∧ ofs < c.resource.length then
    { c with window := some (ofs, min (min len c.winSize) (c.resource.length - ofs)),
             relocations := c.relocations + 1 }
  else
    { c with window := none, relocations := c.relocations + 1 }

/-- Modelled from the spec: `unuse_region()` relinquishes the current window;
the cursor stays associated and is safe to release repeatedly. -/
def unuse_region (c : MemoryCursor) : MemoryCursor :=
  { c with window := none }

/-- Modelled from the spec: well-formedness of a cursor state as the contract
guarantees it — the window size is positive, and an active window exposes
actual resource bytes (hence comes from an associated cursor). -/
def wf (c : MemoryCursor) : Bool :=
  decide (0 < c.winSize) &&
    (match c.window with
     | none => true
     | some (o, s) => decide (o + s ≤ c.resource.length) && c.assoc)

end MemoryCursor

/-- The buffer of src/smmap/buf.py: its only slot is `_c`, the cursor, which
is `None` while unbound. -/
structure MappedMemoryBuffer where
  _c : Option MemoryCursor
deriving DecidableEq, Repr

namespace MappedMemoryBuffer

/-- Embeds `begin_access(cursor, offset, size, flags)`: store the supplied
cursor if any, then, only if a cursor is present and associated, relocate it
to `[offset, offset + size)` and report whether the resulting window is
valid; otherwise report `False`.  Returns the flag paired with the buffer
post-state. -/
def begin_access (b : MappedMemoryBuffer) (cursor : Option MemoryCursor)
    (offset size flags : Nat) : Bool × MappedMemoryBuffer :=
  let b1 : MappedMemoryBuffer :=
    match cursor with
    | some cu => { _c := some cu }
    | none => b
  match b1._c with
  | none => (false, b1)
  | some c =>
      if c.is_associated = true then
        let c' := c.use_region offset size flags
        (c'.is_valid, { _c := some c' })
      else
        (false, b1)

/-- Embeds `end_access()`: if a cursor is present, have it unuse its region;
otherwise do nothing. -/
def end_access (b : MappedMemoryBuffer) : MappedMemoryBuffer :=
  match b._c with
  | none => b
  | some c => { _c := some c.unuse_region }

/-- Embeds `__del__`, which just calls `end_access`. -/
def del (b : MappedMemoryBuffer) : MappedMemoryBuffer :=
  b.end_access

/-- Embeds `cursor()`: the currently set cursor. -/
def cursor (b : MappedMemoryBuffer) : Option MemoryCursor :=
  b._c

/-- Embeds `__init__(cursor, offset, size, flags)`: store the cursor; if one
was supplied, immediately `begin_access` and raise `ValueError`
(`Err.invalidRegion`) if it fails.  The pair carries the outcome and the
instance state as it exists after `__init__` returns or raises. -/
def init (cursor : Option MemoryCursor) (offset size flags : Nat) :
    Except Err Unit × MappedMemoryBuffer :=
  let b : MappedMemoryBuffer := { _c := cursor }
  match cursor with
  | none => (.ok (), b)
  | some cu =>
      let r := b.begin_access (some cu) offset size flags
      if r.1 = true then (.ok (), r.2) else (.error .invalidRegion, r.2)

/-- Embeds `__getitem__(i)`: `None` cursor or failed `assert c.is_valid()`
is `Err.notBound`; otherwise relocate if the window misses `i`, then read
`c.buffer()[i - c.ofs_begin()]`, where a failed relocation or an index past
the window is `Err.outOfRange`. -/
def getitem (b : MappedMemoryBuffer) (i : Nat) :
    Except Err Nat × MappedMemoryBuffer :=
  match b._c with
  | none => (.error .notBound, b)
  | some c =>
      if c.is_valid = true then
        let c' := if c.includes_ofs i = false then c.use_region i 1 0 else c
        match c'.window with
        | none => (.error .outOfRange, { _c := some c' })
        | some _ =>
            match (c'.buffer).get? (i - c'.ofs_begin) with
            | none => (.error .outOfRange, { _c := some c' })
            | some v => (.ok v, { _c := some c' })
      else
        (.error .notBound, b)

/-- Embeds the slow-path `while l:` loop of `__getslice__`: relocate to
`(ofs, l)`, take `d = c.buffer()[:l]`, append it and advance.  A failed
relocation makes the `c.buffer()` access raise (`Err.outOfRange`); a valid
but zero-byte window would make the Python loop spin forever, marked
`Err.diverges`. -/
def sliceLoop (c : MemoryCursor) (ofs l : Nat) (md : List Nat) :
    Except Err (List Nat) × MemoryCursor :=
  if hl : l = 0 then
    (.ok md, c)
  else
    let c' := c.use_region ofs l 0
    match c'.window with
    | none => (.error .outOfRange, c')
    | some _ =>
        let d := (c'.buffer).take l
        if hd : d.length = 0 then
          (.error .diverges, c')
        else
          sliceLoop c' (ofs + d.length) (l - d.length) (md ++ d)
termination_by l
decreasing_by
  exact Nat.sub_lt (Nat.pos_of_ne_zero hl) (Nat.pos_of_ne_zero hd)

/-- Embeds `__getslice__(i, j)`: after `assert c.is_valid()`, the fast path
fires when `c.ofs_begin() <= i and j < c.ofs_end()` and slices the current
window buffer directly; otherwise the slow path loops over relocations with
`l = j - i`. -/
def getslice (b : MappedMemoryBuffer) (i j : Nat) :
    Except Err (List Nat) × MappedMemoryBuffer :=
  match b._c with
  | none => (.error .notBound, b)
  | some c =>
      if c.is_valid = true then
        if c.ofs_begin ≤ i ∧ j < c.ofs_end then
          let bg := c.ofs_begin
          (.ok (((c.buffer).drop (i - bg)).take ((j - bg) - (i - bg))), b)
        else
          let r := sliceLoop c i (j - i) []
          (r.1, { _c := some r.2 })
      else
        (.error .notBound, b)

/-- Sequential byte-by-byte read: the bytes at positions `i, i+1, ...,
i+n-1`, obtained one at a time through `getitem`, threading the buffer state
and stopping at the first error.  This is the "reading positions one at a
time via `at`" of the specification, defined from `getitem` itself. -/
def atReads (b : MappedMemoryBuffer) (i : Nat) : Nat →
    Except Err (List Nat) × MappedMemoryBuffer
  | 0 => (.ok [], b)
  | n + 1 =>
      match b.getitem i with
      | (.ok v, b') =>
          match b'.atReads (i + 1) n with
          | (.ok vs, b'') => (.ok (v :: vs), b'')
          | (.error e, b'') => (.error e, b'')
      | (.error e, b') => (.error e, b')

/-- Object identity of the stored cursor, for frame statements. -/
def cursorId (b : MappedMemoryBuffer) : Option Nat :=
  b._c.map (fun c => c.id)

/-- Relocation count of the stored cursor (0 when unbound), for "no
relocation was issued" statements. -/
def relocCount (b : MappedMemoryBuffer) : Nat :=
  match b._c with
  | none => 0
  | some c => c.relocations

/-- Window of the stored cursor (`none` when unbound or released), for
"fully released, no leaked window" statements. -/
def cursorWindow (b : MappedMemoryBuffer) : Option (Nat × Nat) :=
  match b._c with
  | none => none
  | some c => c.window

end MappedMemoryBuffer

/-- A concrete associated cursor over a five-byte resource with a two-byte
window currently at `[0, 2)`, used to instantiate theorems. -/
def tcur : MemoryCursor :=
  { id := 7, resource := [10, 20, 30, 40, 50], winSize := 2, assoc := true,
    window := some (0, 2), relocations := 0 }

/-- A concrete cursor with no active window (invalid), used to instantiate
theorems about rejected reads. -/
def invCur : MemoryCursor :=
  { id := 3, resource := [10, 20, 30], winSize := 2, assoc := true,
    window := none, relocations := 0 }

/-- A concrete unassociated cursor, used to instantiate theorems about
failing binds. -/
def unassocCur : MemoryCursor :=
  { id := 4, resource := [10, 20, 30], winSize := 2, assoc := false,
    window := none, relocations := 0 }

/-! Helper lemmas about the cursor model. -/

namespace MemoryCursor

theorem use_region_resource (c : MemoryCursor) (ofs len flags : Nat) :
    (c.use_region ofs len flags).resource = c.resource := by
  unfold use_region; split <;> rfl

theorem use_region_assoc (c : MemoryCursor) (ofs len flags : Nat) :
    (c.use_region ofs len flags).assoc = c.assoc := by
  unfold use_region; split <;> rfl

theorem use_region_winSize (c : MemoryCursor) (ofs len flags : Nat) :
    (c.use_region ofs len flags).winSize = c.winSize := by
  unfold use_region; split <;> rfl

theorem use_region_id (c : MemoryCursor) (ofs len flags : Nat) :
    (c.use_region ofs len flags).id = c.id := by
  unfold use_region; split <;> rfl

theorem use_region_relocations (c : MemoryCursor) (ofs len flags : Nat) :
    (c.use_region ofs len flags).relocations = c.relocations + 1 := by
  unfold use_region; split <;> rfl

theorem use_region_window_of_lt (c : MemoryCursor) (ofs len flags : Nat)
    (ha : c.assoc = true) (ho : ofs < c.resource.length) :
    (c.use_region ofs len flags).window
      = some (ofs, min (min len c.winSize) (c.resource.length - ofs)) := by
  unfold use_region
  rw [if_pos ⟨ha, ho⟩]

theorem use_region_window_of_ge (c : MemoryCursor) (ofs len flags : Nat)
    (ho : c.resource.length ≤ ofs) :
    (c.use_region ofs len flags).window = none := by
  unfold use_region
  rw [if_neg]
  rintro ⟨-, h⟩
  omega

theorem buffer_of_window (c : MemoryCursor) (o s : Nat)
    (hw : c.window = some (o, s)) :
    c.buffer = (c.resource.drop o).take s := by
  unfold buffer; rw [hw]

theorem is_valid_of_window (c : MemoryCursor) (p : Nat × Nat)
    (hw : c.window = some p) : c.is_valid = true := by
  unfold is_valid; rw [hw]; rfl

theorem window_of_is_valid (c : MemoryCursor) (h : c.is_valid = true) :
    ∃ o s, c.window = some (o, s) := by
  unfold is_valid at h
  rcases ho : c.window with _ | ⟨o, s⟩
  · rw [ho] at h; cases h
  · exact ⟨o, s, rfl⟩

theorem wf_spec (c : MemoryCursor) (h : c.wf = true) :
    0 < c.winSize ∧
      ∀ o s, c.window = some (o, s) →
        o + s ≤ c.resource.length ∧ c.assoc = true := by
  unfold wf at h
  rcases hw : c.window with _ | ⟨o, s⟩ <;> rw [hw] at h <;>
    simp only [Bool.and_eq_true, decide_eq_true_eq] at h
  · refine ⟨h.1, ?_⟩
    intro o s hos
    simp at hos
  · refine ⟨h.1, ?_⟩
    intro o' s' hos
    simp only [Option.some.injEq, Prod.mk.injEq] at hos
    obtain ⟨rfl, rfl⟩ := hos
    exact h.2

/-- Facts about one successful slow-path relocation step: with an associated
cursor, positive window size, a positive request and the start offset inside
the resource, the grant `g` is what `d = c.buffer()[:l]` yields — a positive
number of bytes, at most `l`, taken contiguously from the resource. -/
theorem use_region_step (c : MemoryCursor) (ofs l : Nat)
    (ha : c.assoc = true) (hW : 0 < c.winSize) (hl : 0 < l)
    (ho : ofs < c.resource.length) :
    (((c.use_region ofs l 0).buffer).take l
        = (c.resource.drop ofs).take
            (min (min l c.winSize) (c.resource.length - ofs))) ∧
    ((((c.use_region ofs l 0).buffer).take l).length
        = min (min l c.winSize) (c.resource.length - ofs)) ∧
    0 < min (min l c.winSize) (c.resource.length - ofs) ∧
    min (min l c.winSize) (c.resource.length - ofs) ≤ l := by
  have hwin := use_region_window_of_lt c ofs l 0 ha ho
  have hbuf := buffer_of_window _ _ _ hwin
  rw [use_region_resource] at hbuf
  constructor
  · rw [hbuf, List.take_take]
    congr 1
    omega
  · refine ⟨?_, by omega, by omega⟩
    rw [hbuf, List.take_take, List.length_take, List.length_drop]
    omega

end MemoryCursor

namespace MappedMemoryBuffer

open MemoryCursor

/-! Unfolding equations for the slow-path loop. -/

theorem sliceLoop_zero (c : MemoryCursor) (ofs : Nat) (md : List Nat) :
    sliceLoop c ofs 0 md = (.ok md, c) := by
  rw [sliceLoop]
  simp

theorem sliceLoop_none (c : MemoryCursor) (ofs l : Nat) (md : List Nat)
    (hl : l ≠ 0) (hw : (c.use_region ofs l 0).window = none) :
    sliceLoop c ofs l md = (.error .outOfRange, c.use_region ofs l 0) := by
  rw [sliceLoop, dif_neg hl]
  simp only [hw]

theorem sliceLoop_step (c : MemoryCursor) (ofs l : Nat) (md : List Nat)
    (hl : l ≠ 0) (p : Nat × Nat) (hw : (c.use_region ofs l 0).window = some p)
    (hd : (((c.use_region ofs l 0).buffer).take l).length ≠ 0) :
    sliceLoop c ofs l md
      = sliceLoop (c.use_region ofs l 0)
          (ofs + (((c.use_region ofs l 0).buffer).take l).length)
          (l - (((c.use_region ofs l 0).buffer).take l).length)
          (md ++ ((c.use_region ofs l 0).buffer).take l) := by
  rw [sliceLoop, dif_neg hl]
  simp only [hw, dif_neg hd]

theorem sliceLoop_diverge (c : MemoryCursor) (ofs l : Nat) (md : List Nat)
    (hl : l ≠ 0) (p : Nat × Nat) (hw : (c.use_region ofs l 0).window = some p)
    (hd : (((c.use_region ofs l 0).buffer).take l).length = 0) :
    sliceLoop c ofs l md = (.error .diverges, c.use_region ofs l 0) := by
  rw [sliceLoop, dif_neg hl]
  simp only [hw, dif_pos hd]

/-- Splitting a contiguous read at a chunk boundary. -/
theorem take_drop_chunk (xs : List Nat) (ofs g l : Nat) (hg : g ≤ l) :
    (xs.drop ofs).take g ++ ((xs.drop (ofs + g)).take (l - g))
      = (xs.drop ofs).take l := by
  conv_rhs => rw [show l = g + (l - g) from by omega, List.take_add]
  rw [List.drop_drop]

/-- The slow-path loop on an in-range request appends exactly the requested
contiguous bytes of the resource to the accumulator. -/
theorem sliceLoop_ok : ∀ (l : Nat) (c : MemoryCursor) (ofs : Nat)
    (md : List Nat), c.assoc = true → 0 < c.winSize →
    ofs + l ≤ c.resource.length →
    (sliceLoop c ofs l md).1 = .ok (md ++ (c.resource.drop ofs).take l) := by
  intro l
  induction l using Nat.strong_induction_on with
  | _ l ih =>
    intro c ofs md ha hW hb
    rcases Nat.eq_zero_or_pos l with rfl | hl
    · rw [sliceLoop_zero]
      simp
    · have ho : ofs < c.resource.length := by omega
      have hs := use_region_step c ofs l ha hW hl ho
      have hw := use_region_window_of_lt c ofs l 0 ha ho
      rw [sliceLoop_step c ofs l md (by omega) _ hw (by rw [hs.2.1]; omega)]
      rw [ih (l - (((c.use_region ofs l 0).buffer).take l).length)
            (by rw [hs.2.1]; omega)
            _ _ _ (by rw [use_region_assoc]; exact ha)
            (by rw [use_region_winSize]; exact hW)
            (by rw [use_region_resource, hs.2.1]; omega)]
      rw [use_region_resource, hs.1]
      have hlen : (List.take (min (min l c.winSize) (c.resource.length - ofs))
          (List.drop ofs c.resource)).length
            = min (min l c.winSize) (c.resource.length - ofs) := by
        rw [List.length_take, List.length_drop]
        omega
      rw [hlen, List.append_assoc]
      congr 2
      exact take_drop_chunk c.resource ofs _ l (by omega)

/-- The slow-path loop on a request running past the resource end terminates
with `Err.outOfRange` (in particular it neither diverges nor returns a
truncated result). -/
theorem sliceLoop_err : ∀ (l : Nat) (c : MemoryCursor) (ofs : Nat)
    (md : List Nat), c.assoc = true → 0 < c.winSize → 0 < l →
    c.resource.length < ofs + l →
    (sliceLoop c ofs l md).1 = .error .outOfRange := by
  intro l
  induction l using Nat.strong_induction_on with
  | _ l ih =>
    intro c ofs md ha hW hl hb
    rcases Nat.lt_or_ge ofs c.resource.length with ho | ho
    · have hs := use_region_step c ofs l ha hW hl ho
      have hw := use_region_window_of_lt c ofs l 0 ha ho
      rw [sliceLoop_step c ofs l md (by omega) _ hw (by rw [hs.2.1]; omega)]
      refine ih (l - (((c.use_region ofs l 0).buffer).take l).length)
          (by rw [hs.2.1]; omega)
          _ _ _ (by rw [use_region_assoc]; exact ha)
          (by rw [use_region_winSize]; exact hW)
          (by rw [hs.2.1]; omega)
          (by rw [use_region_resource, hs.2.1]; omega)
    · rw [sliceLoop_none c ofs l md (by omega)
          (use_region_window_of_ge c ofs l 0 ho)]

theorem ofs_begin_window (c : MemoryCursor) (o s : Nat)
    (hw : c.window = some (o, s)) : c.ofs_begin = o := by
  unfold MemoryCursor.ofs_begin
  rw [hw]

theorem ofs_end_window (c : MemoryCursor) (o s : Nat)
    (hw : c.window = some (o, s)) : c.ofs_end = o + s := by
  unfold MemoryCursor.ofs_end
  rw [hw]

theorem getitem_unbound (i : Nat) :
    getitem ⟨none⟩ i = (.error .notBound, ⟨none⟩) := rfl

theorem getslice_unbound (i j : Nat) :
    getslice ⟨none⟩ i j = (.error .notBound, ⟨none⟩) := rfl

theorem getitem_invalid (c : MemoryCursor) (i : Nat)
    (hv : c.is_valid = false) :
    getitem ⟨some c⟩ i = (.error .notBound, ⟨some c⟩) := by
  unfold getitem
  simp only [hv]
  rfl

theorem getslice_invalid (c : MemoryCursor) (i j : Nat)
    (hv : c.is_valid = false) :
    getslice ⟨some c⟩ i j = (.error .notBound, ⟨some c⟩) := by
  unfold getslice
  simp only [hv]
  rfl

/-- The fast path of `__getslice__`, exactly as the source computes it. -/
theorem getslice_fast (c : MemoryCursor) (o s i j : Nat)
    (hw : c.window = some (o, s)) (hi : o ≤ i) (hj : j < o + s) :
    getslice ⟨some c⟩ i j
      = (.ok (((c.buffer).drop (i - o)).take ((j - o) - (i - o))),
         ⟨some c⟩) := by
  unfold getslice
  simp only [is_valid_of_window c (o, s) hw]
  have hc : c.ofs_begin ≤ i ∧ j < c.ofs_end := by
    rw [ofs_begin_window c o s hw, ofs_end_window c o s hw]
    exact ⟨hi, hj⟩
  rw [if_pos hc, ofs_begin_window c o s hw, if_pos trivial]

/-- The slow path of `__getslice__` is the loop on `l = j - i`. -/
theorem getslice_slow (c : MemoryCursor) (i j : Nat)
    (hv : c.is_valid = true) (hcond : ¬(c.ofs_begin ≤ i ∧ j < c.ofs_end)) :
    getslice ⟨some c⟩ i j
      = ((sliceLoop c i (j - i) []).1,
         ⟨some (sliceLoop c i (j - i) []).2⟩) := by
  unfold getslice
  simp only [hv, if_neg hcond]
  rw [if_pos trivial]

/-- A fast-path window slice is a contiguous slice of the resource. -/
theorem window_slice_content (c : MemoryCursor) (o s i j : Nat)
    (hw : c.window = some (o, s)) (hi : o ≤ i) (hj : j ≤ o + s) :
    ((c.buffer).drop (i - o)).take (j - i)
      = (c.resource.drop i).take (j - i) := by
  rw [buffer_of_window c o s hw, List.drop_take, List.drop_drop,
    show o + (i - o) = i from by omega, List.take_take]
  congr 1
  omega

/-- A single-byte read whose position the current window already covers: no
relocation, the byte comes straight out of the window. -/
theorem getitem_hit (c : MemoryCursor) (o s i : Nat)
    (hw : c.window = some (o, s)) (hN : o + s ≤ c.resource.length)
    (hi : o ≤ i) (his : i < o + s) :
    getitem ⟨some c⟩ i = (.ok (c.resource.getD i 0), ⟨some c⟩) := by
  have hiN : i < c.resource.length := by omega
  have hinc : c.includes_ofs i = true := by
    unfold MemoryCursor.includes_ofs
    rw [hw]
    simp [hi, his]
  have hget : (c.buffer).get? (i - c.ofs_begin)
      = some (c.resource.getD i 0) := by
    rw [ofs_begin_window c o s hw, buffer_of_window c o s hw,
      List.get?_eq_getElem?, List.getElem?_take, if_pos (by omega),
      List.getElem?_drop, show o + (i - o) = i from by omega,
      List.getElem?_eq_getElem hiN, c.resource.getD_eq_getElem?_getD i 0,
      List.getElem?_eq_getElem hiN]
    rfl
  unfold getitem
  simp only [is_valid_of_window c (o, s) hw, hinc, Bool.true_eq_false,
    if_false, if_true, hw, hget]

/-- Byte-by-byte reads inside the current window succeed, touch no state and
return the contiguous bytes of the resource. -/
theorem atReads_ok (c : MemoryCursor) (o s : Nat)
    (hw : c.window = some (o, s)) (hN : o + s ≤ c.resource.length) :
    ∀ (n i : Nat), o ≤ i → i + n ≤ o + s →
    atReads ⟨some c⟩ i n = (.ok ((c.resource.drop i).take n), ⟨some c⟩) := by
  intro n
  induction n with
  | zero =>
      intro i _ _
      simp [atReads]
  | succ n ih =>
      intro i hi hn
      have hiN : i < c.resource.length := by omega
      have hvd : c.resource.getD i 0 = c.resource[i] := by
        rw [c.resource.getD_eq_getElem?_getD i 0,
          List.getElem?_eq_getElem hiN]
        rfl
      rw [atReads, getitem_hit c o s i hw hN hi (by omega)]
      dsimp only
      rw [ih (i + 1) (by omega) (by omega)]
      dsimp only
      rw [hvd, List.drop_eq_getElem_cons hiN, List.take_succ_cons]

/-- The slow-path loop never changes which cursor object is in use. -/
theorem sliceLoop_id : ∀ (l : Nat) (c : MemoryCursor) (ofs : Nat)
    (md : List Nat), ((sliceLoop c ofs l md).2).id = c.id := by
  intro l
  induction l using Nat.strong_induction_on with
  | _ l ih =>
    intro c ofs md
    rcases Nat.eq_zero_or_pos l with rfl | hl
    · rw [sliceLoop_zero]
    · rcases hw : (c.use_region ofs l 0).window with _ | p
      · rw [sliceLoop_none c ofs l md (by omega) hw, use_region_id]
      · rcases Nat.eq_zero_or_pos
            ((((c.use_region ofs l 0).buffer).take l).length) with hd | hd
        · rw [sliceLoop_diverge c ofs l md (by omega) p hw hd, use_region_id]
        · rw [sliceLoop_step c ofs l md (by omega) p hw (by omega)]
          rw [ih _ (by omega), use_region_id]

end MappedMemoryBuffer

open MappedMemoryBuffer MemoryCursor

theorem cursorWindow_del (b : MappedMemoryBuffer) :
    cursorWindow (del b) = none := by
  rcases b with ⟨_ | c⟩
  · rfl
  · rfl

theorem unuse_region_id (c : MemoryCursor) :
    (c.unuse_region).id = c.id := rfl

/-- C5: any read on an unbound buffer (no cursor) or on a buffer whose
cursor reports invalid fails with `NotBound` at the point of the call and
returns no data; in particular constructing without a cursor and immediately
reading index 0 fails with `NotBound`. -/
theorem c5_unbound_reads_rejected (c : MemoryCursor) (i j o s f : Nat) :
    (getitem ⟨none⟩ i).1 = .error .notBound ∧
    (getslice ⟨none⟩ i j).1 = .error .notBound ∧
    (c.is_valid = false →
      (getitem ⟨some c⟩ i).1 = .error .notBound ∧
      (getslice ⟨some c⟩ i j).1 = .error .notBound) ∧
    (init none o s f = (.ok (), ⟨none⟩) ∧
      (getitem (init none o s f).2 0).1 = .error .notBound) := by
  refine ⟨rfl, rfl, ?_, rfl, rfl⟩
  intro hv
  rw [getitem_invalid c i hv, getslice_invalid c i j hv]
  exact ⟨rfl, rfl⟩

/-- C5 witness at a concrete invalid cursor. -/
theorem c5_witness :
    (getitem ⟨none⟩ 0).1 = .error .notBound ∧
    (getslice ⟨none⟩ 0 1).1 = .error .notBound ∧
    (invCur.is_valid = false →
      (getitem ⟨some invCur⟩ 0).1 = .error .notBound ∧
      (getslice ⟨some invCur⟩ 0 1).1 = .error .notBound) ∧
    (init none 0 5 0 = (.ok (), ⟨none⟩) ∧
      (getitem (init none 0 5 0).2 0).1 = .error .notBound) :=
  c5_unbound_reads_rejected invCur 0 1 0 5 0

/-- C8: release is idempotent: a second `end_access`, an `end_access` on a
never-bound buffer, and release followed by destruction are all no-ops
beyond the first release, and the cursor's own release is multi-call
safe. -/
theorem c8_release_idempotent (b : MappedMemoryBuffer) (c : MemoryCursor) :
    end_access (end_access b) = end_access b ∧
    end_access ⟨none⟩ = (⟨none⟩ : MappedMemoryBuffer) ∧
    del (end_access b) = end_access b ∧
    (c.unuse_region).unuse_region = c.unuse_region := by
  refine ⟨?_, rfl, ?_, rfl⟩
  · rcases b with ⟨_ | c'⟩
    · rfl
    · rfl
  · rcases b with ⟨_ | c'⟩
    · rfl
    · rfl

/-- C9: on a bound buffer with a valid cursor, the empty slice at any index
returns the empty byte sequence and leaves the buffer (hence the cursor and
its window) untouched — no relocation is issued, even with the index outside
the window or past the resource end. -/
theorem c9_empty_slice (c : MemoryCursor) (i : Nat)
    (hv : c.is_valid = true) :
    getslice ⟨some c⟩ i i = (.ok [], ⟨some c⟩) := by
  obtain ⟨o, s, hw⟩ := window_of_is_valid c hv
  by_cases hcond : c.ofs_begin ≤ i ∧ i < c.ofs_end
  · obtain ⟨h1, h2⟩ := hcond
    rw [ofs_begin_window c o s hw] at h1
    rw [ofs_end_window c o s hw] at h2
    rw [getslice_fast c o s i i hw h1 h2, Nat.sub_self, List.take_zero]
  · rw [getslice_slow c i i hv hcond, Nat.sub_self, sliceLoop_zero]

/-- C9 witness: empty slice at an index far past the two-byte window and the
five-byte resource of a concrete cursor. -/
theorem c9_witness : getslice ⟨some tcur⟩ 9 9 = (.ok [], ⟨some tcur⟩) :=
  c9_empty_slice tcur 9 (by decide)

theorem getitem_snd_id (c : MemoryCursor) (i : Nat) :
    cursorId ((getitem ⟨some c⟩ i).2) = some c.id := by
  unfold getitem
  cases hv : c.is_valid
  · simp only [hv, Bool.false_eq_true, if_false]
    rfl
  · simp only [hv, if_true]
    split
    · split
      · exact congrArg some (use_region_id c i 1 0)
      · rfl
    · split
      · split
        · exact congrArg some (use_region_id c i 1 0)
        · rfl
      · split
        · exact congrArg some (use_region_id c i 1 0)
        · rfl

theorem getslice_snd_id (c : MemoryCursor) (i j : Nat) :
    cursorId ((getslice ⟨some c⟩ i j).2) = some c.id := by
  cases hv : c.is_valid
  · rw [getslice_invalid c i j hv]
    rfl
  · by_cases hcond : c.ofs_begin ≤ i ∧ j < c.ofs_end
    · obtain ⟨o, s, hw⟩ := window_of_is_valid c hv
      obtain ⟨h1, h2⟩ := hcond
      rw [ofs_begin_window c o s hw] at h1
      rw [ofs_end_window c o s hw] at h2
      rw [getslice_fast c o s i j hw h1 h2]
      rfl
    · rw [getslice_slow c i j hv hcond]
      show some ((sliceLoop c i (j - i) []).2).id = some c.id
      rw [sliceLoop_id]

/-- C10: no operation except construction or `begin_access` with a cursor
supplied changes which cursor object the buffer stores: reads, `end_access`
and a cursor-less `begin_access` all keep the same cursor (so the buffer can
be rebound through it afterwards). -/
theorem c10_cursor_object_preserved (b : MappedMemoryBuffer)
    (i j o s f : Nat) :
    cursorId ((getitem b i).2) = cursorId b ∧
    cursorId ((getslice b i j).2) = cursorId b ∧
    cursorId (end_access b) = cursorId b ∧
    cursorId ((begin_access b none o s f).2) = cursorId b := by
  rcases b with ⟨_ | c⟩
  · exact ⟨rfl, rfl, rfl, rfl⟩
  · refine ⟨getitem_snd_id c i, getslice_snd_id c i j, rfl, ?_⟩
    unfold begin_access
    dsimp only
    cases ha : c.is_associated
    · simp only [ha, Bool.false_eq_true, if_false]
    · simp only [ha, if_true]
      exact congrArg some (use_region_id c o s f)

/-- C6: supplying a cursor to the constructor triggers an immediate bind;
the constructor raises (`Err.invalidRegion`) exactly when that bind reports
failure, and a failed construction, once the automatic destructor release
has run, holds no window; constructing without a cursor succeeds and binds
nothing. -/
theorem c6_ctor_bind (cu : MemoryCursor) (o s f : Nat) :
    init none o s f = (.ok (), ⟨none⟩) ∧
    ((init (some cu) o s f).1 = .error .invalidRegion ↔
      (begin_access ⟨some cu⟩ (some cu) o s f).1 = false) ∧
    ((init (some cu) o s f).1 = .error .invalidRegion →
      cursorWindow (del ((init (some cu) o s f).2)) = none) := by
  refine ⟨rfl, ?_, fun _ => cursorWindow_del _⟩
  have hinit : init (some cu) o s f
      = (if (begin_access ⟨some cu⟩ (some cu) o s f).1 = true
         then ((.ok ()), (begin_access ⟨some cu⟩ (some cu) o s f).2)
         else (.error .invalidRegion,
               (begin_access ⟨some cu⟩ (some cu) o s f).2)) := rfl
  rw [hinit]
  cases hb : (begin_access ⟨some cu⟩ (some cu) o s f).1
  · simp [hb]
  · simp [hb]

/-- C6 witness at a concrete unassociated cursor, whose bind fails. -/
theorem c6_witness :
    init none 0 5 0 = (.ok (), ⟨none⟩) ∧
    (init (some unassocCur) 0 5 0).1 = .error .invalidRegion ∧
    cursorWindow (del ((init (some unassocCur) 0 5 0).2)) = none := by
  have h := c6_ctor_bind unassocCur 0 5 0
  exact ⟨h.1, h.2.1.mpr (by decide), h.2.2 (h.2.1.mpr (by decide))⟩

/-- C7: `begin_access` reports failure (returns `false`, raising nothing)
whenever the effective cursor — the supplied one, else the stored one — is
absent or unassociated, and no relocation happens then; only with an
associated cursor does it relocate to `[offset, offset + size)` with the
given flags and report whether the resulting window is valid. -/
theorem c7_begin_access_gate (b : MappedMemoryBuffer) (c cu : MemoryCursor)
    (o s f : Nat) :
    (b._c = none → begin_access b none o s f = (false, b)) ∧
    (cu.is_associated = false →
      begin_access b (some cu) o s f = (false, ⟨some cu⟩)) ∧
    (b._c = some c → c.is_associated = false →
      begin_access b none o s f = (false, b)) ∧
    (b._c = some c → c.is_associated = true →
      begin_access b none o s f
        = ((c.use_region o s f).is_valid, ⟨some (c.use_region o s f)⟩)) ∧
    (cu.is_associated = true →
      begin_access b (some cu) o s f
        = ((cu.use_region o s f).is_valid,
           ⟨some (cu.use_region o s f)⟩)) := by
  rcases b with ⟨bc⟩
  refine ⟨?_, ?_, ?_, ?_, ?_⟩
  · intro h
    change bc = none at h
    subst h
    rfl
  · intro ha
    unfold begin_access
    dsimp only
    simp only [ha, Bool.false_eq_true, if_false]
  · intro h ha
    change bc = some c at h
    subst h
    unfold begin_access
    dsimp only
    simp only [ha, Bool.false_eq_true, if_false]
  · intro h ha
    change bc = some c at h
    subst h
    unfold begin_access
    dsimp only
    simp only [ha, if_true]
  · intro ha
    unfold begin_access
    dsimp only
    simp only [ha, if_true]

/-- C7 witness: concrete absent, unassociated and associated cursors. -/
theorem c7_witness :
    begin_access ⟨none⟩ none 0 5 0 = (false, ⟨none⟩) ∧
    begin_access ⟨some tcur⟩ (some unassocCur) 0 5 0
      = (false, ⟨some unassocCur⟩) ∧
    begin_access ⟨some unassocCur⟩ none 0 5 0
      = (false, ⟨some unassocCur⟩) ∧
    begin_access ⟨some tcur⟩ none 0 5 0
      = ((tcur.use_region 0 5 0).is_valid, ⟨some (tcur.use_region 0 5 0)⟩) ∧
    begin_access ⟨some unassocCur⟩ (some tcur) 0 5 0
      = ((tcur.use_region 0 5 0).is_valid,
         ⟨some (tcur.use_region 0 5 0)⟩) := by
  refine ⟨(c7_begin_access_gate ⟨none⟩ tcur tcur 0 5 0).1 rfl,
    (c7_begin_access_gate ⟨some tcur⟩ tcur unassocCur 0 5 0).2.1 (by decide),
    (c7_begin_access_gate ⟨some unassocCur⟩ unassocCur tcur 0 5 0).2.2.1
      rfl (by decide),
    (c7_begin_access_gate ⟨some tcur⟩ tcur tcur 0 5 0).2.2.2.1
      rfl (by decide),
    (c7_begin_access_gate ⟨some unassocCur⟩ unassocCur tcur 0 5 0).2.2.2.2
      (by decide)⟩

/-- C1: reads extending past the resource's actual data fail with
`OutOfRange` even after relocation attempts: a single-byte read at or past
the resource end, and any nonempty range read whose end exceeds the
resource end — there the slow-path loop reaches a relocation that yields
zero new bytes with remaining length still positive, and it terminates with
the `OutOfRange` failure instead of looping forever. -/
theorem c1_reads_past_end_fail (c : MemoryCursor)
    (hwf : c.wf = true) (hv : c.is_valid = true) :
    (∀ i, c.resource.length ≤ i →
      (getitem ⟨some c⟩ i).1 = .error .outOfRange) ∧
    (∀ i j, i < j → c.resource.length < j →
      (getslice ⟨some c⟩ i j).1 = .error .outOfRange) := by
  obtain ⟨o, s, hw⟩ := window_of_is_valid c hv
  obtain ⟨hW, hws⟩ := wf_spec c hwf
  obtain ⟨hN, ha⟩ := hws o s hw
  constructor
  · intro i hiN
    have hinc : c.includes_ofs i = false := by
      unfold MemoryCursor.includes_ofs
      rw [hw]
      simp only [Bool.and_eq_false_iff, decide_eq_false_iff_not]
      right
      omega
    have hnone : (c.use_region i 1 0).window = none :=
      use_region_window_of_ge c i 1 0 (by omega)
    unfold getitem
    simp only [hv, if_true, hinc, hnone]
  · intro i j hij hjN
    have hcond : ¬(c.ofs_begin ≤ i ∧ j < c.ofs_end) := by
      rw [ofs_end_window c o s hw]
      rintro ⟨-, h2⟩
      omega
    rw [getslice_slow c i j hv hcond]
    exact sliceLoop_err (j - i) c i [] ha hW (by omega) (by omega)

/-- C1 witness: one-byte and range reads past a concrete five-byte
resource. -/
theorem c1_witness :
    (getitem ⟨some tcur⟩ 9).1 = .error .outOfRange ∧
    (getslice ⟨some tcur⟩ 1 7).1 = .error .outOfRange :=
  ⟨(c1_reads_past_end_fail tcur (by decide) (by decide)).1 9 (by decide),
   (c1_reads_past_end_fail tcur (by decide) (by decide)).2 1 7
     (by decide) (by decide)⟩

/-- C2: every in-range slice on a bound, valid buffer — including ranges
wider than the window size, which the slow path assembles across several
relocations — terminates and returns exactly `j - i` bytes, byte-identical
to one contiguous read of `[i, j)` from the resource. -/
theorem c2_in_range_slice (c : MemoryCursor) (i j : Nat)
    (hwf : c.wf = true) (hv : c.is_valid = true) (hij : i ≤ j)
    (hjN : j ≤ c.resource.length) :
    (getslice ⟨some c⟩ i j).1 = .ok ((c.resource.drop i).take (j - i)) ∧
    ((c.resource.drop i).take (j - i)).length = j - i := by
  obtain ⟨o, s, hw⟩ := window_of_is_valid c hv
  obtain ⟨hW, hws⟩ := wf_spec c hwf
  obtain ⟨hN, ha⟩ := hws o s hw
  refine ⟨?_, by rw [List.length_take, List.length_drop]; omega⟩
  by_cases hcond : c.ofs_begin ≤ i ∧ j < c.ofs_end
  · obtain ⟨h1, h2⟩ := hcond
    rw [ofs_begin_window c o s hw] at h1
    rw [ofs_end_window c o s hw] at h2
    rw [getslice_fast c o s i j hw h1 h2]
    dsimp only
    rw [show (j - o) - (i - o) = j - i from by omega,
      window_slice_content c o s i j hw h1 (by omega)]
  · rw [getslice_slow c i j hv hcond]
    dsimp only
    rw [sliceLoop_ok (j - i) c i [] ha hW (by omega)]
    rw [List.nil_append]

/-- C2 witness: the full five-byte resource through a two-byte window, a
range wider than the window. -/
theorem c2_witness :
    (getslice ⟨some tcur⟩ 0 5).1
      = .ok ((tcur.resource.drop 0).take (5 - 0)) ∧
    ((tcur.resource.drop 0).take (5 - 0)).length = 5 - 0 :=
  c2_in_range_slice tcur 0 5 (by decide) (by decide) (by decide) (by decide)

/-- C4: for every `i ≤ j` with `[i, j)` fully inside the current window,
`slice(i, j)` returns exactly the same sequence of bytes as reading
positions `i, i+1, ..., j-1` one at a time through the single-byte read. -/
theorem c4_slice_matches_bytewise (c : MemoryCursor) (o s i j : Nat)
    (hwf : c.wf = true) (hw : c.window = some (o, s)) (hij : i ≤ j)
    (hi : o ≤ i) (hj : j ≤ o + s) :
    (getslice ⟨some c⟩ i j).1 = (atReads ⟨some c⟩ i (j - i)).1 := by
  obtain ⟨hW, hws⟩ := wf_spec c hwf
  obtain ⟨hN, ha⟩ := hws o s hw
  have hv := is_valid_of_window c (o, s) hw
  rw [atReads_ok c o s hw hN (j - i) i hi (by omega)]
  by_cases hcond : j < o + s
  · rw [getslice_fast c o s i j hw hi hcond]
    dsimp only
    rw [show (j - o) - (i - o) = j - i from by omega,
      window_slice_content c o s i j hw hi (by omega)]
  · have hcond' : ¬(c.ofs_begin ≤ i ∧ j < c.ofs_end) := by
      rw [ofs_end_window c o s hw]
      rintro ⟨-, h⟩
      omega
    rw [getslice_slow c i j hv hcond']
    dsimp only
    rw [sliceLoop_ok (j - i) c i [] ha hW (by omega), List.nil_append]

/-- C4 witness: the range `[0, 2)` that exactly fills the concrete cursor's
window. -/
theorem c4_witness :
    (getslice ⟨some tcur⟩ 0 2).1 = (atReads ⟨some tcur⟩ 0 (2 - 0)).1 :=
  c4_slice_matches_bytewise tcur 0 2 0 2 (by decide) rfl (by decide)
    (by decide) (by decide)

/-- C3 (counterexample): with the concrete cursor's window at `[0, 2)`, the
half-open range `[0, 2)` is fully contained in the window, the buffer is
bound and valid, yet `slice(0, 2)` issues a relocation request — the
source's fast path requires `j` strictly below the window end, so this call
takes the slow path. -/
theorem c3_counterexample :
    tcur.ofs_begin ≤ 0 ∧ 2 ≤ tcur.ofs_end ∧ tcur.is_valid = true ∧
    relocCount ⟨some tcur⟩ = 0 ∧
    relocCount ((getslice ⟨some tcur⟩ 0 2).2) = 1 := by
  refine ⟨by decide, by decide, by decide, rfl, ?_⟩
  rw [getslice_slow tcur 0 2 (by decide) (by decide)]
  show relocCount ⟨some (sliceLoop tcur 0 2 []).2⟩ = 1
  rw [sliceLoop_step tcur 0 2 [] (by decide) (0, 2) (by decide) (by decide)]
  have hlen : (List.take 2 ((tcur.use_region 0 2 0).buffer)).length = 2 := by
    decide
  rw [hlen, show (2 : Nat) - 2 = 0 from rfl, sliceLoop_zero]
  decide

/-- C3 (amended): the fast path fires exactly under the source's strict
test: if the window contains `[i, j)` with `j` strictly below the window
end, `slice(i, j)` returns the corresponding sub-range of the current
window contents and issues no relocation, leaving the buffer (cursor and
window) unchanged; with `j` equal to the window end the slow path runs
instead, as the counterexample shows. -/
theorem c3_amended_fast_path (c : MemoryCursor) (o s i j : Nat)
    (hw : c.window = some (o, s)) (hi : o ≤ i) (hj : j < o + s) :
    (getslice ⟨some c⟩ i j).1
      = .ok (((c.buffer).drop (i - o)).take (j - i)) ∧
    (getslice ⟨some c⟩ i j).2 = ⟨some c⟩ := by
  rw [getslice_fast c o s i j hw hi hj]
  constructor
  · dsimp only
    rw [show (j - o) - (i - o) = j - i from by omega]
  · rfl

/-- C3 witness (amended): a strictly interior range of the concrete
window. -/
theorem c3_witness :
    (getslice ⟨some tcur⟩ 0 1).1
      = .ok (((tcur.buffer).drop (0 - 0)).take (1 - 0)) ∧
    (getslice ⟨some tcur⟩ 0 1).2 = ⟨some tcur⟩ :=
  c3_amended_fast_path tcur 0 2 0 1 rfl (by decide) (by decide)

end Smmap
